import Mathlib

/-!
Verification of the progressive Cornell-box path tracer in
static/posts/2020-04-02-write-a-performant-ray-tracer-in-python-i/box.py.

The Taichi kernels are shallowly embedded here.  Machine floats are modelled
as elements of an arbitrary linear ordered field (instantiated at ℚ for
executable checks and at ℝ where square roots are needed).  The Taichi
random source is modelled as an explicit stream of values handed to the
functions that consume it, so every definition is a pure function of its
inputs.
-/

set_option maxHeartbeats 1000000
set_option maxRecDepth 8000
set_option linter.unusedVariables false

namespace RayBox

/-- Three-component vector, the model of `ti.Vector` of length 3. -/
@[ext]
structure Vec3 (α : Type) where
  x : α
  y : α
  z : α
deriving DecidableEq

variable {α : Type} [LinearOrderedField α]

instance : Zero (Vec3 α) := ⟨⟨0, 0, 0⟩⟩

instance : One (Vec3 α) := ⟨⟨1, 1, 1⟩⟩

instance : Add (Vec3 α) := ⟨fun v w => ⟨v.x + w.x, v.y + w.y, v.z + w.z⟩⟩

instance : Sub (Vec3 α) := ⟨fun v w => ⟨v.x - w.x, v.y - w.y, v.z - w.z⟩⟩

instance : Neg (Vec3 α) := ⟨fun v => ⟨-v.x, -v.y, -v.z⟩⟩

/-- Componentwise product, the model of `ti.Vector * ti.Vector`. -/
instance : Mul (Vec3 α) := ⟨fun v w => ⟨v.x * w.x, v.y * w.y, v.z * w.z⟩⟩

/-- Scalar times vector, the model of `scalar * ti.Vector`. -/
instance : SMul α (Vec3 α) := ⟨fun c v => ⟨c * v.x, c * v.y, c * v.z⟩⟩

/-- Dot product, the model of `ti.dot`. -/
def dot (v w : Vec3 α) : α := v.x * w.x + v.y * w.y + v.z * w.z

/-- Source constant `eps = 1e-4`. -/
def eps : α := 1 / 10000

/-- Source constant `inf = 1e10`, the sentinel distance. -/
def inf : α := 10000000000

/-- Source constant `fov = 0.8`. -/
def fov : α := 8 / 10

/-- Source constant `max_ray_depth = 10`. -/
def max_ray_depth : ℕ := 10

/-- Source constant `mat_none = 0`. -/
def mat_none : ℕ := 0

/-- Source constant `mat_lambertian = 1`. -/
def mat_lambertian : ℕ := 1

/-- Source constant `mat_light = 2`. -/
def mat_light : ℕ := 2

/-- Source constant `camera_pos = ti.Vector([0.0, 0.6, 3.0])`. -/
def camera_pos : Vec3 α := ⟨0, 6 / 10, 3⟩

/-- Source constant `light_color = ti.Vector([0.9, 0.85, 0.7])`. -/
def light_color : Vec3 α := ⟨9 / 10, 85 / 100, 7 / 10⟩

/-- The gray color `ti.Vector([0.93, 0.93, 0.93])` used by three planes. -/
def gray : Vec3 α := ⟨93 / 100, 93 / 100, 93 / 100⟩

/-- Model of `ray_plane_intersect`: the distance along the ray to the plane,
or the sentinel `inf` when the denominator is not larger than `eps` in
absolute value (source: `t = inf; if abs(denom) > eps: t = ... / denom`). -/
def ray_plane_intersect (ray_o ray_d pt_on_plane norm : Vec3 α) : α :=
  if eps < |dot ray_d norm| then dot (pt_on_plane - ray_o) norm / dot ray_d norm
  else inf

/-- A scene-intersection record in source order:
(closest distance, normal, color, material). -/
abbrev Hit (α : Type) := α × Vec3 α × Vec3 α × ℕ

/-- The five candidate hits computed inside `intersect_scene`, in the scan
order of the source: left, right, bottom, top, far.  Each entry is the
distance returned by `ray_plane_intersect` for that plane together with the
normal, color and material the corresponding `if` block would install. -/
def candidates (ray_o ray_d : Vec3 α) : List (Hit α) :=
  [ (ray_plane_intersect ray_o ray_d ⟨-(11 / 10), 0, 0⟩ ⟨1, 0, 0⟩,
       ⟨1, 0, 0⟩, ⟨65 / 100, 5 / 100, 5 / 100⟩, mat_lambertian),
    (ray_plane_intersect ray_o ray_d ⟨11 / 10, 0, 0⟩ ⟨-1, 0, 0⟩,
       ⟨-1, 0, 0⟩, ⟨12 / 100, 45 / 100, 15 / 100⟩, mat_lambertian),
    (ray_plane_intersect ray_o ray_d ⟨0, 0, 0⟩ ⟨0, 1, 0⟩,
       ⟨0, 1, 0⟩, gray, mat_lambertian),
    (ray_plane_intersect ray_o ray_d ⟨0, 2, 0⟩ ⟨0, -1, 0⟩,
       ⟨0, -1, 0⟩, gray, mat_lambertian),
    (ray_plane_intersect ray_o ray_d ⟨0, 0, 0⟩ ⟨0, 0, 1⟩,
       ⟨0, 0, 1⟩, gray, mat_lambertian) ]

/-- The initial accumulator of `intersect_scene`:
`closest, normal = inf, zero; color, mat = zero, mat_none`. -/
def no_hit : Hit α := (inf, 0, 0, mat_none)

/-- One `if 0 < cur_dist < closest:` block of `intersect_scene`: keep the
candidate when its distance is strictly positive and strictly improves the
running best, otherwise keep the running best. -/
def upd (best c : Hit α) : Hit α :=
  if 0 < c.1 ∧ c.1 < best.1 then c else best

/-- Model of `intersect_scene`: the five update blocks applied in scan order
to the initial no-hit accumulator. -/
def intersect_scene (ray_o ray_d : Vec3 α) : Hit α :=
  (candidates ray_o ray_d).foldl upd no_hit

/-- Model of `random_in_unit_sphere`: the source draws candidate points from
the random source until one has squared norm at most 1.  The random source is
modelled as the stream `s` of candidate points, and the rejection loop
returns the first acceptable point of the stream; the hypothesis `h` states
that the loop terminates on this stream. -/
def random_in_unit_sphere (s : ℕ → Vec3 α) (h : ∃ k, dot (s k) (s k) ≤ 1) :
    Vec3 α :=
  s (Nat.find h)

/-- One lambertian bounce of the `render` loop applied to a (position,
direction) pair, given the direction returned by the diffuse sampler:
`hit_pos = ray_pos + closest * ray_dir; ray_pos = hit_pos + eps * ray_dir`. -/
def bounce_step (scene : Vec3 α → Vec3 α → Hit α) (pd : Vec3 α × Vec3 α)
    (newDir : Vec3 α) : Vec3 α × Vec3 α :=
  ((pd.1 + (scene pd.1 pd.2).1 • pd.2) + (eps : α) • newDir, newDir)

/-- The (position, direction) pair of the path after `k` bounces, starting
from the primary ray, when the sampler returns `dirs 0, dirs 1, ...`.
This follows the spec description of the bounce sequence. -/
def bounce_pos_dir (scene : Vec3 α → Vec3 α → Hit α) (dirs : ℕ → Vec3 α)
    (p d : Vec3 α) : ℕ → Vec3 α × Vec3 α
  | 0 => (p, d)
  | k + 1 => bounce_step scene (bounce_pos_dir scene dirs p d k) (dirs k)

/-- The material returned by the scene query at step `k` of the path. -/
def matAt (scene : Vec3 α → Vec3 α → Hit α) (dirs : ℕ → Vec3 α)
    (p d : Vec3 α) (k : ℕ) : ℕ :=
  (scene (bounce_pos_dir scene dirs p d k).1
    (bounce_pos_dir scene dirs p d k).2).2.2.2

/-- The surface color returned by the scene query at step `k` of the path. -/
def colorAt (scene : Vec3 α → Vec3 α → Hit α) (dirs : ℕ → Vec3 α)
    (p d : Vec3 α) (k : ℕ) : Vec3 α :=
  (scene (bounce_pos_dir scene dirs p d k).1
    (bounce_pos_dir scene dirs p d k).2).2.2.1

/-- The componentwise product of the hit colors of the first `k` bounces,
starting from `(1,1,1)`; this is the spec description of `throughput`. -/
def throughputAt (scene : Vec3 α → Vec3 α → Hit α) (dirs : ℕ → Vec3 α)
    (p d : Vec3 α) : ℕ → Vec3 α
  | 0 => 1
  | k + 1 => throughputAt scene dirs p d k * colorAt scene dirs p d k

/-- Model of the bounce loop of `render` (the `while depth < max_ray_depth`
loop).  `fuel` stands for `max_ray_depth - depth`, so the loop is entered
with `fuel = max_ray_depth`; the stream `dirs` supplies the successive
outputs of the diffuse sampler, the head being consumed at each bounce.
The result is the `px_color` value the loop leaves behind: it starts at
zero, is set to `throughput * light_color` exactly on a light hit, and is
left at zero on a `mat_none` break or on loop exhaustion. -/
def render_loop (scene : Vec3 α → Vec3 α → Hit α) (dirs : ℕ → Vec3 α) :
    ℕ → Vec3 α → Vec3 α → Vec3 α → Vec3 α
  | 0, _, _, _ => 0
  | fuel + 1, ray_pos, ray_dir, throughput =>
    if (scene ray_pos ray_dir).2.2.2 = mat_none then 0
    else if (scene ray_pos ray_dir).2.2.2 = mat_light then
      throughput * light_color
    else
      render_loop scene (fun k => dirs (k + 1)) fuel
        ((ray_pos + (scene ray_pos ray_dir).1 • ray_dir) + (eps : α) • dirs 0)
        (dirs 0)
        (throughput * (scene ray_pos ray_dir).2.2.1)

/-- The accumulation buffer after `n` frames: `color_buffer` starts at zero
and each frame adds one sample per pixel (`color_buffer[u, v] += px_color`).
`Pix` is abstract here; `sample n p` is the sample frame `n` adds at `p`. -/
def color_buffer_after {Pix : Type} (sample : ℕ → Pix → Vec3 α) :
    ℕ → Pix → Vec3 α
  | 0, _ => 0
  | n + 1, p => color_buffer_after sample n p + sample n p

/-- The per-pixel sample of one frame of the program: the bounce loop run on
the box scene from the camera, with full fuel and unit throughput.  The
primary directions `prim` and sampler streams `st` are per-frame/per-pixel
inputs. -/
def box_sample {Pix : Type} (prim : ℕ → Pix → Vec3 α)
    (st : ℕ → Pix → ℕ → Vec3 α) (n : ℕ) (p : Pix) : Vec3 α :=
  render_loop intersect_scene (st n p) max_ray_depth camera_pos (prim n p) 1

/-- Source constant `res = (800, 800)`, first component. -/
def res0 : α := 800

/-- Source constant `res = (800, 800)`, second component. -/
def res1 : α := 800

/-- Source constant `aspect_ratio = res[0] / res[1]`. -/
def aspect : α := res0 / res1

/-- The Euclidean norm of a vector, used by `ti.normalized`. -/
noncomputable def norm3 (v : Vec3 ℝ) : ℝ := Real.sqrt (dot v v)

/-- Model of `ti.normalized`: the vector divided componentwise by its norm. -/
noncomputable def normalized (v : Vec3 ℝ) : Vec3 ℝ :=
  ⟨v.x / norm3 v, v.y / norm3 v, v.z / norm3 v⟩

/-- Model of `sample_ray_dir(indir, normal, hit_pos, mat)`: normalize the sum
of a rejection-sampled point of the unit ball and the surface normal.  As in
the source, `indir`, `hit_pos` and `m` are ignored.  The random source is the
stream `s` with termination witness `h`. -/
noncomputable def sample_ray_dir (s : ℕ → Vec3 ℝ)
    (h : ∃ k, dot (s k) (s k) ≤ 1) (indir norm_v hit_pos : Vec3 ℝ) (m : ℕ) :
    Vec3 ℝ :=
  normalized (random_in_unit_sphere s h + norm_v)

/-- The primary ray of `render` for pixel `(u, v)`: origin `camera_pos` and
the normalized direction built from the field of view and the two jitter
values `j1`, `j2` drawn by `ti.random()` for this pixel this frame. -/
noncomputable def primary_ray (u v : ℕ) (j1 j2 : ℝ) : Vec3 ℝ × Vec3 ℝ :=
  (camera_pos,
   normalized
     ⟨2 * fov * ((u : ℝ) + j1) / res1 - fov * aspect,
      2 * fov * ((v : ℝ) + j2) / res1 - fov,
      -1⟩)

/-- The pixel grid of the 800 by 800 frame buffer. -/
abbrev Screen := Fin 800 × Fin 800

/-- Componentwise `numpy` array times scalar (`arr * c`). -/
def vscale (v : Vec3 α) (c : α) : Vec3 α := ⟨v.x * c, v.y * c, v.z * c⟩

/-- Componentwise `numpy` array divided by scalar (`arr / c`). -/
def compDiv (v : Vec3 α) (c : α) : Vec3 α := ⟨v.x / c, v.y / c, v.z / c⟩

/-- Model of `img.mean()`: the mean over all 800 * 800 * 3 scalar entries of
the image. -/
def imgMean (img : Screen → Vec3 α) : α :=
  (∑ p : Screen, ((img p).x + (img p).y + (img p).z)) / (800 * 800 * 3)

/-- Componentwise `np.sqrt`. -/
noncomputable def vsqrt (v : Vec3 ℝ) : Vec3 ℝ :=
  ⟨Real.sqrt v.x, Real.sqrt v.y, Real.sqrt v.z⟩

/-- Model of the display normalization of the frame loop at iteration `i`
(zero-based):
`img = color_buffer.to_numpy(as_vector=True) * (1 / (i + 1))` followed by
`img = np.sqrt(img / img.mean() * 0.24)`.  `to_numpy` copies the buffer, so
this is a pure function of the buffer contents. -/
noncomputable def displayed (buf : Screen → Vec3 ℝ) (i : ℕ) :
    Screen → Vec3 ℝ :=
  fun p =>
    vsqrt
      (vscale
        (compDiv (vscale (buf p) (1 / ((i : ℝ) + 1)))
          (imgMean fun q => vscale (buf q) (1 / ((i : ℝ) + 1))))
        (24 / 100))

/-- The state carried across one iteration of the frame loop: the Taichi
accumulation buffer and the image last handed to `gui.set_image`. -/
structure GuiState where
  acc : Screen → Vec3 ℝ
  image : Screen → Vec3 ℝ

/-- One iteration of the module-level frame loop: run `render()` (adding
`sample p` to every pixel accumulator), then compute the displayed image
from a snapshot of the updated buffer.  The buffer handed to the next
iteration is exactly the post-render buffer: the display step reads a
`to_numpy` copy and never writes the accumulator. -/
noncomputable def frame_step (sample : Screen → Vec3 ℝ) (i : ℕ)
    (s : GuiState) : GuiState :=
  ⟨fun p => s.acc p + sample p, displayed (fun p => s.acc p + sample p) i⟩

@[simp] theorem zero_x : (0 : Vec3 α).x = 0 := rfl

@[simp] theorem zero_y : (0 : Vec3 α).y = 0 := rfl

@[simp] theorem zero_z : (0 : Vec3 α).z = 0 := rfl

@[simp] theorem one_x : (1 : Vec3 α).x = 1 := rfl

@[simp] theorem one_y : (1 : Vec3 α).y = 1 := rfl

@[simp] theorem one_z : (1 : Vec3 α).z = 1 := rfl

@[simp] theorem add_x (v w : Vec3 α) : (v + w).x = v.x + w.x := rfl

@[simp] theorem add_y (v w : Vec3 α) : (v + w).y = v.y + w.y := rfl

@[simp] theorem add_z (v w : Vec3 α) : (v + w).z = v.z + w.z := rfl

@[simp] theorem sub_x (v w : Vec3 α) : (v - w).x = v.x - w.x := rfl

@[simp] theorem sub_y (v w : Vec3 α) : (v - w).y = v.y - w.y := rfl

@[simp] theorem sub_z (v w : Vec3 α) : (v - w).z = v.z - w.z := rfl

@[simp] theorem neg_x (v : Vec3 α) : (-v).x = -v.x := rfl

@[simp] theorem neg_y (v : Vec3 α) : (-v).y = -v.y := rfl

@[simp] theorem neg_z (v : Vec3 α) : (-v).z = -v.z := rfl

@[simp] theorem mul_x (v w : Vec3 α) : (v * w).x = v.x * w.x := rfl

@[simp] theorem mul_y (v w : Vec3 α) : (v * w).y = v.y * w.y := rfl

@[simp] theorem mul_z (v w : Vec3 α) : (v * w).z = v.z * w.z := rfl

@[simp] theorem smul_x (c : α) (v : Vec3 α) : (c • v).x = c * v.x := rfl

@[simp] theorem smul_y (c : α) (v : Vec3 α) : (c • v).y = c * v.y := rfl

@[simp] theorem smul_z (c : α) (v : Vec3 α) : (c • v).z = c * v.z := rfl

theorem vone_mul (v : Vec3 α) : 1 * v = v := by ext <;> simp

theorem vmul_one (v : Vec3 α) : v * 1 = v := by ext <;> simp

theorem vzero_add (v : Vec3 α) : 0 + v = v := by ext <;> simp

theorem vmul_assoc (a b c : Vec3 α) : a * b * c = a * (b * c) := by
  ext <;> simp [mul_assoc]

theorem bounce_pos_dir_shift (scene : Vec3 α → Vec3 α → Hit α)
    (dirs : ℕ → Vec3 α) (p d : Vec3 α) :
    ∀ k, bounce_pos_dir scene dirs p d (k + 1) =
      bounce_pos_dir scene (fun j => dirs (j + 1))
        ((p + (scene p d).1 • d) + (eps : α) • dirs 0) (dirs 0) k := by
  intro k
  induction k with
  | zero => rfl
  | succ k ih =>
    show bounce_step scene (bounce_pos_dir scene dirs p d (k + 1)) (dirs (k + 1)) = _
    rw [ih]
    rfl

theorem matAt_shift (scene : Vec3 α → Vec3 α → Hit α) (dirs : ℕ → Vec3 α)
    (p d : Vec3 α) (k : ℕ) :
    matAt scene dirs p d (k + 1) =
      matAt scene (fun j => dirs (j + 1))
        ((p + (scene p d).1 • d) + (eps : α) • dirs 0) (dirs 0) k := by
  unfold matAt
  rw [bounce_pos_dir_shift]

theorem colorAt_shift (scene : Vec3 α → Vec3 α → Hit α) (dirs : ℕ → Vec3 α)
    (p d : Vec3 α) (k : ℕ) :
    colorAt scene dirs p d (k + 1) =
      colorAt scene (fun j => dirs (j + 1))
        ((p + (scene p d).1 • d) + (eps : α) • dirs 0) (dirs 0) k := by
  unfold colorAt
  rw [bounce_pos_dir_shift]

theorem throughputAt_shift (scene : Vec3 α → Vec3 α → Hit α)
    (dirs : ℕ → Vec3 α) (p d : Vec3 α) :
    ∀ n, throughputAt scene dirs p d (n + 1) =
      colorAt scene dirs p d 0 *
        throughputAt scene (fun j => dirs (j + 1))
          ((p + (scene p d).1 • d) + (eps : α) • dirs 0) (dirs 0) n := by
  intro n
  induction n with
  | zero =>
    simp only [throughputAt]
    rw [vone_mul, vmul_one]
  | succ n ih =>
    show throughputAt scene dirs p d (n + 1) * colorAt scene dirs p d (n + 1) = _
    rw [ih, colorAt_shift, vmul_assoc]
    rfl

theorem foldl_upd_spec :
    ∀ (L : List (Hit α)) (a : Hit α),
      (∀ c ∈ L, 0 < c.1 → (L.foldl upd a).1 ≤ c.1) ∧
      (L.foldl upd a).1 ≤ a.1 ∧
      (L.foldl upd a = a ∨
        ∃ pre post, L = pre ++ (L.foldl upd a) :: post ∧
          0 < (L.foldl upd a).1 ∧ (L.foldl upd a).1 < a.1 ∧
          ∀ c ∈ pre, 0 < c.1 → (L.foldl upd a).1 < c.1) ∧
      ((∃ c ∈ L, 0 < c.1 ∧ c.1 < a.1) → (L.foldl upd a).1 < a.1) := by
  intro L
  induction L with
  | nil =>
    intro a
    refine ⟨by simp, le_refl _, Or.inl rfl, ?_⟩
    rintro ⟨c, hc, -⟩
    simp at hc
  | cons c0 T IH =>
    intro a
    by_cases hc : 0 < c0.1 ∧ c0.1 < a.1
    · have hupd : upd a c0 = c0 := if_pos hc
      simp only [List.foldl_cons, hupd]
      obtain ⟨A, B, C, D⟩ := IH c0
      refine ⟨?_, le_trans B (le_of_lt hc.2), ?_, fun _ => lt_of_le_of_lt B hc.2⟩
      · intro x hx hpos
        rcases List.mem_cons.mp hx with rfl | hx'
        · exact B
        · exact A x hx' hpos
      · rcases C with hEq | ⟨pre, post, hT, hpos, hlt, hpre⟩
        · refine Or.inr ⟨[], T, by rw [hEq]; rfl, ?_, ?_, by simp⟩
          · rw [hEq]; exact hc.1
          · rw [hEq]; exact hc.2
        · refine Or.inr ⟨c0 :: pre, post, by rw [List.cons_append, ← hT], hpos,
            lt_trans hlt hc.2, ?_⟩
          intro x hx hxpos
          rcases List.mem_cons.mp hx with rfl | hx'
          · exact hlt
          · exact hpre x hx' hxpos
    · have hupd : upd a c0 = a := if_neg hc
      simp only [List.foldl_cons, hupd]
      obtain ⟨A, B, C, D⟩ := IH a
      have hge : 0 < c0.1 → a.1 ≤ c0.1 := by
        intro hpos
        by_contra hlt2
        exact hc ⟨hpos, not_le.mp hlt2⟩
      refine ⟨?_, B, ?_, ?_⟩
      · intro x hx hpos
        rcases List.mem_cons.mp hx with rfl | hx'
        · exact le_trans B (hge hpos)
        · exact A x hx' hpos
      · rcases C with hEq | ⟨pre, post, hT, hpos, hlt, hpre⟩
        · exact Or.inl hEq
        · refine Or.inr ⟨c0 :: pre, post, by rw [List.cons_append, ← hT], hpos, hlt, ?_⟩
          intro x hx hxpos
          rcases List.mem_cons.mp hx with rfl | hx'
          · exact lt_of_lt_of_le hlt (hge hxpos)
          · exact hpre x hx' hxpos
      · rintro ⟨x, hx, hxpos, hxlt⟩
        rcases List.mem_cons.mp hx with rfl | hx'
        · exact absurd ⟨hxpos, hxlt⟩ hc
        · exact D ⟨x, hx', hxpos, hxlt⟩

theorem intersect_scene_mem (o d : Vec3 α) :
    intersect_scene o d = no_hit ∨ intersect_scene o d ∈ candidates o d := by
  rcases (foldl_upd_spec (candidates o d) no_hit).2.2.1 with h | ⟨pre, post, hT, -, -, -⟩
  · exact Or.inl h
  · right
    have hmem : List.foldl upd no_hit (candidates o d) ∈
        pre ++ (List.foldl upd no_hit (candidates o d)) :: post :=
      List.mem_append_right _ (List.mem_cons_self _ _)
    rw [← hT] at hmem
    exact hmem

theorem candidates_mat (o d : Vec3 α) :
    ∀ c ∈ candidates o d, c.2.2.2 = mat_lambertian := by
  intro c hc
  simp only [candidates, List.mem_cons, List.not_mem_nil, or_false] at hc
  rcases hc with rfl | rfl | rfl | rfl | rfl <;> rfl

theorem intersect_scene_mat (o d : Vec3 α) :
    (intersect_scene o d).2.2.2 = mat_none ∨
      (intersect_scene o d).2.2.2 = mat_lambertian := by
  rcases intersect_scene_mem o d with h | h
  · left; rw [h]; rfl
  · exact Or.inr (candidates_mat o d _ h)

theorem render_loop_spec (scene : Vec3 α → Vec3 α → Hit α) :
    ∀ (n fuel : ℕ) (dirs : ℕ → Vec3 α) (p d thr : Vec3 α),
      n ≤ fuel →
      (∀ k, k < n → matAt scene dirs p d k = mat_lambertian) →
      ((n < fuel → matAt scene dirs p d n = mat_light →
          render_loop scene dirs fuel p d thr =
            thr * throughputAt scene dirs p d n * light_color) ∧
       (n < fuel → matAt scene dirs p d n = mat_none →
          render_loop scene dirs fuel p d thr = 0) ∧
       (n = fuel → render_loop scene dirs fuel p d thr = 0)) := by
  intro n
  induction n with
  | zero =>
    intro fuel dirs p d thr _ _
    refine ⟨?_, ?_, ?_⟩
    · intro hf hm
      obtain ⟨f, rfl⟩ : ∃ f, fuel = f + 1 := ⟨fuel - 1, by omega⟩
      have hm0 : (scene p d).2.2.2 = mat_light := hm
      have hstep : render_loop scene dirs (f + 1) p d thr = thr * light_color := by
        show (if (scene p d).2.2.2 = mat_none then 0
          else if (scene p d).2.2.2 = mat_light then thr * light_color
          else render_loop scene (fun k => dirs (k + 1)) f
            ((p + (scene p d).1 • d) + (eps : α) • dirs 0) (dirs 0)
            (thr * (scene p d).2.2.1)) = thr * light_color
        rw [hm0, if_neg (by decide), if_pos rfl]
      rw [hstep, show throughputAt scene dirs p d 0 = 1 from rfl, vmul_one]
    · intro hf hm
      obtain ⟨f, rfl⟩ : ∃ f, fuel = f + 1 := ⟨fuel - 1, by omega⟩
      have hm0 : (scene p d).2.2.2 = mat_none := hm
      show (if (scene p d).2.2.2 = mat_none then 0
        else if (scene p d).2.2.2 = mat_light then thr * light_color
        else render_loop scene (fun k => dirs (k + 1)) f
          ((p + (scene p d).1 • d) + (eps : α) • dirs 0) (dirs 0)
          (thr * (scene p d).2.2.1)) = 0
      rw [hm0, if_pos rfl]
    · intro h0
      rw [← h0]
      rfl
  | succ n IH =>
    intro fuel dirs p d thr hle hlam
    obtain ⟨f, rfl⟩ : ∃ f, fuel = f + 1 := ⟨fuel - 1, by omega⟩
    have h0 : (scene p d).2.2.2 = mat_lambertian := hlam 0 (Nat.succ_pos n)
    have hunfold : render_loop scene dirs (f + 1) p d thr =
        render_loop scene (fun k => dirs (k + 1)) f
          ((p + (scene p d).1 • d) + (eps : α) • dirs 0) (dirs 0)
          (thr * (scene p d).2.2.1) := by
      show (if (scene p d).2.2.2 = mat_none then 0
        else if (scene p d).2.2.2 = mat_light then thr * light_color
        else render_loop scene (fun k => dirs (k + 1)) f
          ((p + (scene p d).1 • d) + (eps : α) • dirs 0) (dirs 0)
          (thr * (scene p d).2.2.1)) = _
      rw [h0, if_neg (by decide), if_neg (by decide)]
    have hlam2 : ∀ k, k < n →
        matAt scene (fun j => dirs (j + 1))
          ((p + (scene p d).1 • d) + (eps : α) • dirs 0) (dirs 0) k =
          mat_lambertian := by
      intro k hk
      rw [← matAt_shift]
      exact hlam (k + 1) (by omega)
    have IH2 := IH f (fun j => dirs (j + 1))
      ((p + (scene p d).1 • d) + (eps : α) • dirs 0) (dirs 0)
      (thr * (scene p d).2.2.1) (by omega) hlam2
    refine ⟨?_, ?_, ?_⟩
    · intro hf hm
      rw [hunfold, IH2.1 (by omega) (by rw [← matAt_shift]; exact hm)]
      rw [throughputAt_shift, ← vmul_assoc]
      rfl
    · intro hf hm
      rw [hunfold]
      exact IH2.2.1 (by omega) (by rw [← matAt_shift]; exact hm)
    · intro hf
      rw [hunfold]
      exact IH2.2.2 (by omega)

theorem render_loop_box_zero :
    ∀ (fuel : ℕ) (dirs : ℕ → Vec3 α) (p d thr : Vec3 α),
      render_loop intersect_scene dirs fuel p d thr = 0 := by
  intro fuel
  induction fuel with
  | zero => intro dirs p d thr; rfl
  | succ f IH =>
    intro dirs p d thr
    simp only [render_loop]
    rcases intersect_scene_mat p d with h | h
    · rw [if_pos h]
    · rw [if_neg (by rw [h]; decide), if_neg (by rw [h]; decide)]
      exact IH _ _ _ _

theorem color_buffer_box_zero {Pix : Type} (prim : ℕ → Pix → Vec3 α)
    (st : ℕ → Pix → ℕ → Vec3 α) :
    ∀ (n : ℕ) (p : Pix), color_buffer_after (box_sample prim st) n p = 0 := by
  intro n
  induction n with
  | zero => intro p; rfl
  | succ n IH =>
    intro p
    show color_buffer_after (box_sample prim st) n p + box_sample prim st n p = 0
    rw [IH p, vzero_add]
    exact render_loop_box_zero max_ray_depth (st n p) camera_pos (prim n p) 1

theorem dot_self_nonneg (v : Vec3 ℝ) : 0 ≤ dot v v := by
  unfold dot
  nlinarith [mul_self_nonneg v.x, mul_self_nonneg v.y, mul_self_nonneg v.z]

theorem dot_self_pos (v : Vec3 ℝ) (hv : v ≠ 0) : 0 < dot v v := by
  rcases lt_or_eq_of_le (dot_self_nonneg v) with h | h
  · exact h
  · exfalso
    apply hv
    have hx : v.x * v.x = 0 := by
      unfold dot at h
      nlinarith [mul_self_nonneg v.x, mul_self_nonneg v.y, mul_self_nonneg v.z]
    have hy : v.y * v.y = 0 := by
      unfold dot at h
      nlinarith [mul_self_nonneg v.x, mul_self_nonneg v.y, mul_self_nonneg v.z]
    have hz : v.z * v.z = 0 := by
      unfold dot at h
      nlinarith [mul_self_nonneg v.x, mul_self_nonneg v.y, mul_self_nonneg v.z]
    ext
    · exact mul_self_eq_zero.mp hx
    · exact mul_self_eq_zero.mp hy
    · exact mul_self_eq_zero.mp hz

theorem norm3_normalized (v : Vec3 ℝ) (hv : v ≠ 0) :
    norm3 (normalized v) = 1 := by
  have hd : 0 < dot v v := dot_self_pos v hv
  have hdot : dot (normalized v) (normalized v) = dot v v / (norm3 v * norm3 v) := by
    unfold normalized dot
    ring
  have hsq : norm3 v * norm3 v = dot v v := Real.mul_self_sqrt (dot_self_nonneg v)
  unfold norm3
  rw [hdot, hsq, div_self (ne_of_gt hd), Real.sqrt_one]

theorem displayed_zero_buffer (i : ℕ) (p : Screen) :
    displayed (fun _ => 0) i p = 0 := by
  unfold displayed vsqrt vscale compDiv
  ext <;> simp

theorem imgMean_zero_buffer (i : ℕ) :
    imgMean (fun q : Screen => vscale ((fun _ => (0 : Vec3 ℝ)) q) (1 / ((i : ℝ) + 1))) = 0 := by
  unfold imgMean vscale
  simp

/-- C1: for a primary ray traced by the bounce loop with full fuel, if the
first `n` scene queries return LAMBERTIAN and the query at step `n` returns
LIGHT with `n` below the maximal depth, the sample is the throughput (the
componentwise product of the `n` hit colors, starting from one) times the
light color; if the query at step `n` returns NONE the sample is zero; and
if all `max_ray_depth` queries return LAMBERTIAN the loop exhausts its depth
and the sample is zero.  The sample is the value `render` adds to the pixel
accumulator. -/
theorem claim_C1 (scene : Vec3 α → Vec3 α → Hit α) (dirs : ℕ → Vec3 α)
    (p d : Vec3 α) (n : ℕ) (hn : n ≤ max_ray_depth)
    (hlam : ∀ k, k < n → matAt scene dirs p d k = mat_lambertian) :
    (n < max_ray_depth → matAt scene dirs p d n = mat_light →
        render_loop scene dirs max_ray_depth p d 1 =
          throughputAt scene dirs p d n * light_color) ∧
    (n < max_ray_depth → matAt scene dirs p d n = mat_none →
        render_loop scene dirs max_ray_depth p d 1 = 0) ∧
    (n = max_ray_depth → render_loop scene dirs max_ray_depth p d 1 = 0) := by
  have h := render_loop_spec scene n max_ray_depth dirs p d 1 hn hlam
  refine ⟨fun hf hm => ?_, h.2.1, h.2.2⟩
  rw [h.1 hf hm, vone_mul]

/-- C1 witness: in the rational box scene a ray from the camera straight
toward the far plane bounces once (LAMBERTIAN), then escapes (NONE), so the
sample is zero. -/
theorem claim_C1_witness :
    render_loop intersect_scene (fun _ => (⟨0, 0, 1⟩ : Vec3 ℚ)) max_ray_depth
      camera_pos ⟨0, 0, -1⟩ 1 = 0 :=
  (claim_C1 intersect_scene (fun _ => (⟨0, 0, 1⟩ : Vec3 ℚ)) camera_pos
      ⟨0, 0, -1⟩ 1 (by norm_num [max_ray_depth])
      (by
        intro k hk
        interval_cases k
        norm_num [matAt, bounce_pos_dir, bounce_step, intersect_scene,
          candidates, ray_plane_intersect, upd, no_hit, dot, eps, inf,
          camera_pos, gray])).2.1
    (by norm_num [max_ray_depth])
    (by norm_num [matAt, bounce_pos_dir, bounce_step, intersect_scene,
      candidates, ray_plane_intersect, upd, no_hit, dot, eps, inf,
      camera_pos, gray, mat_none])

/-- C2 counterexample: for the ray from the camera pointing toward positive z,
the five individually computed plane distances are four sentinels 1e10 (all
strictly positive) and one negative distance, so the minimum strictly
positive candidate distance is 1e10 and every candidate carries the
LAMBERTIAN material; yet `intersect_scene` returns material NONE with zero
normal and zero color, not the winning candidate data the claim asserts. -/
theorem claim_C2_counterexample :
    ((candidates camera_pos (⟨0, 0, 1⟩ : Vec3 ℚ)).map Prod.fst =
      [inf, inf, inf, inf, -3]) ∧
    (0 : ℚ) < inf ∧
    (∀ c ∈ candidates camera_pos (⟨0, 0, 1⟩ : Vec3 ℚ), c.2.2.2 = mat_lambertian) ∧
    intersect_scene camera_pos (⟨0, 0, 1⟩ : Vec3 ℚ) = (inf, 0, 0, mat_none) ∧
    mat_none < mat_lambertian := by
  refine ⟨?_, by norm_num [inf], candidates_mat _ _, ?_, by decide⟩
  · norm_num [candidates, ray_plane_intersect, dot, eps, inf, camera_pos, gray]
  · norm_num [intersect_scene, candidates, ray_plane_intersect, upd, no_hit,
      dot, eps, inf, camera_pos, gray]

/-- C2 (amended): `intersect_scene` returns a record whose distance is at
most every strictly positive candidate distance; the record is either the
no-hit record (1e10, zero normal, zero color, NONE) or one of the five
candidates whose distance lies strictly between 0 and the sentinel 1e10, in
which case every candidate earlier in scan order (left, right, bottom, top,
far) with strictly positive distance has strictly larger distance, so exact
ties are won by the earliest such plane; and whenever some candidate
distance lies strictly between 0 and 1e10 the returned distance is below
1e10, so the no-hit record is returned exactly when no candidate qualifies. -/
theorem claim_C2_amended (o d : Vec3 α) :
    (∀ c ∈ candidates o d, 0 < c.1 → (intersect_scene o d).1 ≤ c.1) ∧
    (intersect_scene o d = (inf, 0, 0, mat_none) ∨
      ∃ pre post, candidates o d = pre ++ (intersect_scene o d) :: post ∧
        0 < (intersect_scene o d).1 ∧ (intersect_scene o d).1 < inf ∧
        ∀ c ∈ pre, 0 < c.1 → (intersect_scene o d).1 < c.1) ∧
    ((∃ c ∈ candidates o d, 0 < c.1 ∧ c.1 < inf) →
      (intersect_scene o d).1 < inf) := by
  unfold intersect_scene
  obtain ⟨A, B, C, D⟩ := foldl_upd_spec (candidates o d) no_hit
  exact ⟨A, C, D⟩

/-- C2 witness: the far plane candidate for the camera ray toward negative z
has distance 3, so the returned closest distance is at most 3. -/
theorem claim_C2_amended_witness :
    (intersect_scene camera_pos (⟨0, 0, -1⟩ : Vec3 ℚ)).1 ≤ 3 :=
  (claim_C2_amended camera_pos (⟨0, 0, -1⟩ : Vec3 ℚ)).1
    (3, ⟨0, 0, 1⟩, gray, mat_lambertian)
    (by norm_num [candidates, ray_plane_intersect, dot, eps, inf, camera_pos, gray])
    (by norm_num)

/-- C3 counterexample: with ray direction (1e-4, 0, 0) and plane normal
(1, 0, 0), the dot product has absolute value exactly eps, which is not
below eps, so the claim prescribes the quotient 10000; but the function
returns the sentinel 1e10, which is a different value. -/
theorem claim_C3_counterexample :
    |dot (⟨1 / 10000, 0, 0⟩ : Vec3 ℚ) ⟨1, 0, 0⟩| = eps ∧
    ray_plane_intersect (⟨0, 0, 0⟩ : Vec3 ℚ) ⟨1 / 10000, 0, 0⟩ ⟨1, 0, 0⟩
      ⟨1, 0, 0⟩ = inf ∧
    dot ((⟨1, 0, 0⟩ : Vec3 ℚ) - ⟨0, 0, 0⟩) ⟨1, 0, 0⟩ /
        dot (⟨1 / 10000, 0, 0⟩ : Vec3 ℚ) ⟨1, 0, 0⟩ = 10000 ∧
    (10000 : ℚ) < inf := by
  have hdot : dot (⟨1 / 10000, 0, 0⟩ : Vec3 ℚ) ⟨1, 0, 0⟩ = 1 / 10000 := by
    norm_num [dot]
  have habs : |dot (⟨1 / 10000, 0, 0⟩ : Vec3 ℚ) ⟨1, 0, 0⟩| = 1 / 10000 := by
    rw [hdot, abs_of_pos]
    norm_num
  refine ⟨by rw [habs]; rfl, ?_, ?_, by norm_num [inf]⟩
  · unfold ray_plane_intersect
    rw [if_neg (by rw [habs]; norm_num [eps])]
  · rw [hdot]
    norm_num [dot]

/-- C3 (amended): `ray_plane_intersect` returns the sentinel 1e10 whenever
the absolute dot product of ray direction and plane normal is at most eps
(not merely below it), and otherwise returns the quotient
`dot(planePoint - rayOrigin, planeNormal) / dot(rayDir, planeNormal)`. -/
theorem claim_C3_amended (ray_o ray_d pt_on_plane norm_v : Vec3 α) :
    (|dot ray_d norm_v| ≤ eps →
      ray_plane_intersect ray_o ray_d pt_on_plane norm_v = inf) ∧
    (eps < |dot ray_d norm_v| →
      ray_plane_intersect ray_o ray_d pt_on_plane norm_v =
        dot (pt_on_plane - ray_o) norm_v / dot ray_d norm_v) := by
  constructor
  · intro h
    unfold ray_plane_intersect
    rw [if_neg (not_lt.mpr h)]
  · intro h
    unfold ray_plane_intersect
    rw [if_pos h]

/-- C3 witness: a ray with direction (1,0,0) meeting the plane through
(5,0,0) with normal (1,0,0) has distance 5. -/
theorem claim_C3_amended_witness :
    ray_plane_intersect (⟨0, 0, 0⟩ : Vec3 ℚ) ⟨1, 0, 0⟩ ⟨5, 0, 0⟩ ⟨1, 0, 0⟩ = 5 := by
  have h := (claim_C3_amended (⟨0, 0, 0⟩ : Vec3 ℚ) ⟨1, 0, 0⟩ ⟨5, 0, 0⟩
    ⟨1, 0, 0⟩).2 (by norm_num [dot, eps])
  rw [h]
  norm_num [dot]

/-- The displayed image in claim form: for every buffer and frame index, the
code expression `np.sqrt(img / img.mean() * 0.24)` with
`img = buf * (1 / (i + 1))` equals componentwise
`sqrt((buf / N) * (0.24 / mean(buf / N)))` with `N = i + 1`. -/
theorem displayed_claim_form (buf : Screen → Vec3 ℝ) (i : ℕ) (p : Screen) :
    displayed buf i p =
      vsqrt (vscale (compDiv (buf p) ((i : ℝ) + 1))
        ((24 / 100) / imgMean (fun q => compDiv (buf q) ((i : ℝ) + 1)))) := by
  have hmean : imgMean (fun q => vscale (buf q) (1 / ((i : ℝ) + 1))) =
      imgMean (fun q => compDiv (buf q) ((i : ℝ) + 1)) := by
    unfold imgMean
    congr 1
    apply Finset.sum_congr rfl
    intro q _
    simp [vscale, compDiv]
    ring
  unfold displayed
  rw [hmean]
  unfold vsqrt vscale compDiv
  ext
  · exact congrArg Real.sqrt (by push_cast; ring)
  · exact congrArg Real.sqrt (by push_cast; ring)
  · exact congrArg Real.sqrt (by push_cast; ring)

/-- C4: after the frame with zero-based index `i` (so after `N = i + 1`
frames), the image handed to `gui.set_image` equals componentwise
`sqrt((acc / N) * (0.24 / mean(acc / N)))` where `acc` is the accumulation
buffer after that frame; and the buffer carried to the next iteration is
exactly the post-render buffer, the display computation reading only a
snapshot and never writing the accumulator. -/
theorem claim_C4 (sample : Screen → Vec3 ℝ) (i : ℕ) (s : GuiState) (p : Screen) :
    (frame_step sample i s).acc = (fun q => s.acc q + sample q) ∧
    (frame_step sample i s).image p =
      vsqrt (vscale (compDiv ((frame_step sample i s).acc p) ((i : ℝ) + 1))
        ((24 / 100) /
          imgMean (fun q => compDiv ((frame_step sample i s).acc q) ((i : ℝ) + 1)))) :=
  ⟨rfl, displayed_claim_form (fun q => s.acc q + sample q) i p⟩

/-- C5: in the five-plane box scene the material returned by
`intersect_scene` is always NONE or LAMBERTIAN (never LIGHT), every bounce
loop sample is zero whatever the primary ray, the sampler stream, the fuel
and the throughput, and the accumulation buffer is identically zero after
every frame. -/
theorem claim_C5 :
    (∀ o d : Vec3 α, (intersect_scene o d).2.2.2 = mat_none ∨
        (intersect_scene o d).2.2.2 = mat_lambertian) ∧
    (∀ (dirs : ℕ → Vec3 α) (fuel : ℕ) (p d thr : Vec3 α),
        render_loop intersect_scene dirs fuel p d thr = 0) ∧
    (∀ (Pix : Type) (prim : ℕ → Pix → Vec3 α) (st : ℕ → Pix → ℕ → Vec3 α)
        (n : ℕ) (p : Pix), color_buffer_after (box_sample prim st) n p = 0) :=
  ⟨intersect_scene_mat,
   fun dirs fuel p d thr => render_loop_box_zero fuel dirs p d thr,
   fun _ prim st n p => color_buffer_box_zero prim st n p⟩

/-- C6: the primary ray for pixel `(u, v)` with jitter values in `[0, 1)`
has origin (0, 0.6, 3) and direction the normalization of
`(2*fov*(u + j1)/height - fov*aspectRatio, 2*fov*(v + j2)/height - fov, -1)`
with fov = 0.8, height = 800 and aspect ratio 1. -/
theorem claim_C6 (u v : ℕ) (j1 j2 : ℝ) (h1 : 0 ≤ j1) (h2 : j1 < 1)
    (h3 : 0 ≤ j2) (h4 : j2 < 1) :
    (primary_ray u v j1 j2).1 = ⟨0, 6 / 10, 3⟩ ∧
    (primary_ray u v j1 j2).2 =
      normalized
        ⟨2 * (8 / 10) * ((u : ℝ) + j1) / 800 - (8 / 10) * 1,
         2 * (8 / 10) * ((v : ℝ) + j2) / 800 - 8 / 10,
         -1⟩ := by
  constructor
  · rfl
  · show normalized _ = normalized _
    congr 1
    ext <;> norm_num [fov, aspect, res0, res1]

/-- C6 witness: the primary ray of pixel (0, 0) with zero jitter. -/
theorem claim_C6_witness :
    (primary_ray 0 0 0 0).1 = ⟨0, 6 / 10, 3⟩ ∧
    (primary_ray 0 0 0 0).2 =
      normalized
        ⟨2 * (8 / 10) * (((0 : ℕ) : ℝ) + 0) / 800 - (8 / 10) * 1,
         2 * (8 / 10) * (((0 : ℕ) : ℝ) + 0) / 800 - 8 / 10,
         -1⟩ :=
  claim_C6 0 0 0 0 (le_refl 0) (by norm_num) (le_refl 0) (by norm_num)

/-- Termination witness for the constant stream at the point (0, 0, -1),
whose squared norm is 1. -/
theorem stream_neg_z_ok :
    ∃ k : ℕ, dot ((fun _ => (⟨0, 0, -1⟩ : Vec3 ℝ)) k)
      ((fun _ => (⟨0, 0, -1⟩ : Vec3 ℝ)) k) ≤ 1 :=
  ⟨0, by norm_num [dot]⟩

/-- Termination witness for the constant stream at the origin, whose squared
norm is 0. -/
theorem stream_zero_ok :
    ∃ k : ℕ, dot ((fun _ => (0 : Vec3 ℝ)) k) ((fun _ => (0 : Vec3 ℝ)) k) ≤ 1 :=
  ⟨0, by norm_num [dot]⟩

/-- C7 counterexample: the normal (0, 0, 1) is unit, the accepted sample
point is (0, 0, -1), their sum is the zero vector, and the direction the
sampler returns has norm 0, not 1 (division of the zero vector by its zero
norm). -/
theorem claim_C7_counterexample :
    norm3 ⟨0, 0, 1⟩ = 1 ∧
    norm3 (sample_ray_dir (fun _ => ⟨0, 0, -1⟩) stream_neg_z_ok 0 ⟨0, 0, 1⟩ 0 0) = 0 ∧
    (0 : ℝ) < 1 := by
  refine ⟨?_, ?_, by norm_num⟩
  · unfold norm3 dot
    norm_num
  · have hsum : random_in_unit_sphere (fun _ => (⟨0, 0, -1⟩ : Vec3 ℝ))
        stream_neg_z_ok + ⟨0, 0, 1⟩ = 0 := by
      show (⟨0, 0, -1⟩ : Vec3 ℝ) + ⟨0, 0, 1⟩ = 0
      ext <;> norm_num
    unfold sample_ray_dir
    rw [hsum]
    unfold normalized norm3 dot
    norm_num

/-- C7 (amended): the accepted sample point has squared norm at most 1, and
whenever the accepted sample point plus the unit surface normal is nonzero,
the direction returned by the diffuse sampler has norm exactly 1. -/
theorem claim_C7_amended (s : ℕ → Vec3 ℝ) (h : ∃ k, dot (s k) (s k) ≤ 1)
    (indir norm_v hit_pos : Vec3 ℝ) (m : ℕ) (hn : norm3 norm_v = 1)
    (hnz : random_in_unit_sphere s h + norm_v ≠ 0) :
    dot (random_in_unit_sphere s h) (random_in_unit_sphere s h) ≤ 1 ∧
    norm3 (sample_ray_dir s h indir norm_v hit_pos m) = 1 := by
  refine ⟨Nat.find_spec h, ?_⟩
  unfold sample_ray_dir
  exact norm3_normalized _ hnz

/-- C7 witness: with the constant zero stream and the unit normal (0, 0, 1)
the sampler returns a direction of norm 1. -/
theorem claim_C7_amended_witness :
    dot (random_in_unit_sphere (fun _ => (0 : Vec3 ℝ)) stream_zero_ok)
        (random_in_unit_sphere (fun _ => (0 : Vec3 ℝ)) stream_zero_ok) ≤ 1 ∧
    norm3 (sample_ray_dir (fun _ => (0 : Vec3 ℝ)) stream_zero_ok 0 ⟨0, 0, 1⟩ 0 0) = 1 :=
  claim_C7_amended (fun _ => 0) stream_zero_ok 0 ⟨0, 0, 1⟩ 0 0
    (by unfold norm3 dot; norm_num)
    (by
      show (0 : Vec3 ℝ) + ⟨0, 0, 1⟩ ≠ 0
      intro hEq
      have hz := congrArg Vec3.z hEq
      simp at hz)

/-- C8: the path integrator is deterministic given its randomness: two
sampler streams that agree at every index produce the same bounce sequence,
the same throughput at every step, and the same pixel contribution for
every fuel and initial throughput. -/
theorem claim_C8 (scene : Vec3 α → Vec3 α → Hit α) (dirs1 dirs2 : ℕ → Vec3 α)
    (p d : Vec3 α) (h : ∀ k, dirs1 k = dirs2 k) :
    (∀ k, bounce_pos_dir scene dirs1 p d k = bounce_pos_dir scene dirs2 p d k) ∧
    (∀ k, throughputAt scene dirs1 p d k = throughputAt scene dirs2 p d k) ∧
    (∀ (fuel : ℕ) (thr : Vec3 α),
      render_loop scene dirs1 fuel p d thr = render_loop scene dirs2 fuel p d thr) := by
  have hdirs : dirs1 = dirs2 := funext h
  subst hdirs
  exact ⟨fun _ => rfl, fun _ => rfl, fun _ _ => rfl⟩

/-- C8 witness: two syntactically different but pointwise equal constant
streams give the same contribution on the box scene. -/
theorem claim_C8_witness :
    render_loop intersect_scene (fun _ => (⟨0, 0, 1⟩ : Vec3 ℚ)) max_ray_depth
        camera_pos ⟨0, 0, -1⟩ 1 =
      render_loop intersect_scene (fun _ => (⟨0, 0, 2 / 2⟩ : Vec3 ℚ)) max_ray_depth
        camera_pos ⟨0, 0, -1⟩ 1 :=
  (claim_C8 intersect_scene (fun _ => (⟨0, 0, 1⟩ : Vec3 ℚ))
      (fun _ => (⟨0, 0, 2 / 2⟩ : Vec3 ℚ)) camera_pos ⟨0, 0, -1⟩
      (fun k => by norm_num)).2.2 max_ray_depth 1

/-- C9: when no candidate plane distance is strictly positive and below the
sentinel, `intersect_scene` returns the sentinel distance 1e10 with zero
normal, zero color and material NONE, as an ordinary return value of the
total function. -/
theorem claim_C9 (o d : Vec3 α)
    (h : ∀ c ∈ candidates o d, ¬(0 < c.1 ∧ c.1 < inf)) :
    intersect_scene o d = (inf, 0, 0, mat_none) := by
  unfold intersect_scene
  rcases (foldl_upd_spec (candidates o d) no_hit).2.2.1 with
    hEq | ⟨pre, post, hT, hpos, hlt, -⟩
  · exact hEq
  · exfalso
    have hmem : List.foldl upd no_hit (candidates o d) ∈
        pre ++ (List.foldl upd no_hit (candidates o d)) :: post :=
      List.mem_append_right _ (List.mem_cons_self _ _)
    rw [← hT] at hmem
    exact h _ hmem ⟨hpos, hlt⟩

/-- C9 witness: the camera ray toward positive z misses every plane (four
parallel sentinels and one negative distance), and the no-hit record is
returned. -/
theorem claim_C9_witness :
    intersect_scene camera_pos (⟨0, 0, 1⟩ : Vec3 ℚ) = (inf, 0, 0, mat_none) :=
  claim_C9 camera_pos (⟨0, 0, 1⟩ : Vec3 ℚ)
    (by
      intro c hc
      norm_num [candidates, ray_plane_intersect, dot, eps, inf, camera_pos,
        gray] at hc
      rcases hc with rfl | rfl | rfl | rfl | rfl <;> norm_num [inf])

end RayBox
